import Mathlib

set_option maxRecDepth 10000

/-- The apostrophe character (code point 39), one of the quote characters the classifier strips. -/
def squoteChar : Char := Char.ofNat 39

/-- The double-quote character (code point 34), the other quote character the classifier strips. -/
def dquoteChar : Char := Char.ofNat 34

/-- The newline character (code point 10), the secondary split delimiter of the chunker. -/
def newlineChar : Char := Char.ofNat 10

/-- The fullwidth full stop U+FF0E, the sentence-ending delimiter used throughout the bot. -/
def zenkakuPeriod : Char := '．'

/-- Hard length limit of one message, the local constant limit = 3000 of send_long_message. -/
def LIMIT : Nat := 3000

/-- Index of the last occurrence of a character in a list of characters:
the greatest index whose element equals the character, if any. -/
def lastIdxOf (c : Char) : List Char → Option Nat
  | [] => none
  | x :: xs =>
    match lastIdxOf c xs with
    | some j => some (j + 1)
    | none => if x == c then some 0 else none

/-- Embedding of Python text.rfind(c, start, stop): the greatest absolute index i with
start ≤ i < min stop (length of text) such that text[i] = c, or none when the
window holds no occurrence. -/
def rfindChar (text : List Char) (c : Char) (start stop : Nat) : Option Nat :=
  (lastIdxOf c ((text.drop start).take (stop - start))).map (fun j => start + j)

/-- Candidate split position of one loop iteration of send_long_message:
an rfind for the fullwidth full stop over the window [pos, pos+limit), and only
when that fails an rfind for a newline over the same window. -/
def foundPos (text : List Char) (limit pos : Nat) : Option Nat :=
  match rfindChar text zenkakuPeriod pos (pos + limit) with
  | some s => some s
  | none => rfindChar text newlineChar pos (pos + limit)

/-- Final split position of one loop iteration: the found delimiter position, or a
hard cut at pos + limit when none was found or the found position makes no
forward progress. -/
def splitPos (text : List Char) (limit pos : Nat) : Nat :=
  match foundPos text limit pos with
  | none => pos + limit
  | some s => if s ≤ pos then pos + limit else s

/-- Fuel-indexed embedding of the chunking while-loop of send_long_message: every
iteration with pos < length emits the slice text[pos : splitPos+1] and continues
at splitPos + 1. -/
def chunkLoop (text : List Char) (limit : Nat) : Nat → Nat → List (List Char)
  | 0, _ => []
  | fuel + 1, pos =>
    if pos < text.length then
      ((text.drop pos).take (splitPos text limit pos + 1 - pos)) ::
        chunkLoop text limit fuel (splitPos text limit pos + 1)
    else []

/-- The part list produced by the chunking loop of send_long_message, run with
fuel equal to the text length, which is always sufficient. -/
def chunkParts (text : List Char) (limit : Nat) : List (List Char) :=
  chunkLoop text limit text.length 0

/-- Header prepended to the 1-based part i of n, from the f-string of send_long_message. -/
def partHeader (i n : Nat) : List Char :=
  ("*" ++ toString i ++ "/" ++ toString n ++ "*" ++ "\n\n").data

/-- The message texts posted by send_long_message: the unmodified text when it fits
the limit, otherwise every chunk part prefixed by its header. -/
def send_long_texts (text : List Char) : List (List Char) :=
  if text.length ≤ LIMIT then [text]
  else
    (chunkParts text LIMIT).enum.map
      (fun p => partHeader (p.1 + 1) (chunkParts text LIMIT).length ++ p.2)

example : chunkParts "abcde".data 2 = ["abc".data, "de".data] := by decide

example : chunkParts "ab．cdefg".data 4 = ["ab．".data, "cdefg".data] := by decide

/-- Unfolding equation of lastIdxOf on a cons cell. -/
theorem lastIdxOf_cons (c x : Char) (xs : List Char) :
    lastIdxOf c (x :: xs) =
      match lastIdxOf c xs with
      | some j => some (j + 1)
      | none => if x == c then some 0 else none := rfl

/-- A character list has no last occurrence of c exactly when c does not occur in it. -/
theorem lastIdxOf_eq_none_iff (c : Char) (l : List Char) :
    lastIdxOf c l = none ↔ c ∉ l := by
  induction l with
  | nil => simp [lastIdxOf]
  | cons x xs ih =>
    simp only [lastIdxOf]
    cases h : lastIdxOf c xs with
    | some j =>
      have hc : c ∈ xs := by
        by_contra hcn
        rw [ih.mpr hcn] at h
        exact Option.noConfusion h
      simp [h, List.mem_cons, hc]
    | none =>
      by_cases hx : x = c
      · simp [hx, List.mem_cons]
      · have hbeq : (x == c) = false := by simp [hx]
        have hcx : ¬c = x := fun hcx => hx hcx.symm
        simp [hbeq, List.mem_cons, ih.mp h, hcx]

/-- The last-occurrence index is a valid index. -/
theorem lastIdxOf_lt_length {c : Char} {l : List Char} {j : Nat}
    (h : lastIdxOf c l = some j) : j < l.length := by
  induction l generalizing j with
  | nil => exact Option.noConfusion h
  | cons x xs ih =>
    simp only [lastIdxOf] at h
    cases h' : lastIdxOf c xs with
    | some j' =>
      rw [h'] at h
      cases h
      have := ih h'
      simp
      omega
    | none =>
      rw [h'] at h
      by_cases hx : (x == c) = true
      · rw [if_pos hx] at h
        cases h
        simp
      · rw [if_neg hx] at h
        exact Option.noConfusion h

/-- Appending on the left shifts a found last occurrence by the left length. -/
theorem lastIdxOf_append_some {c : Char} (l₁ : List Char) {l₂ : List Char} {j : Nat}
    (h : lastIdxOf c l₂ = some j) :
    lastIdxOf c (l₁ ++ l₂) = some (l₁.length + j) := by
  induction l₁ with
  | nil => simpa using h
  | cons x xs ih =>
    rw [List.cons_append, lastIdxOf_cons, ih]
    simp only [List.length_cons]
    congr 1
    omega

/-- When the right part has no occurrence, the search falls back to the left part. -/
theorem lastIdxOf_append_none {c : Char} {l₁ l₂ : List Char}
    (h : lastIdxOf c l₂ = none) :
    lastIdxOf c (l₁ ++ l₂) = lastIdxOf c l₁ := by
  induction l₁ with
  | nil => simpa using h
  | cons x xs ih =>
    rw [List.cons_append, lastIdxOf_cons, ih, lastIdxOf_cons]

/-- When the final element of a list is c, the last occurrence of c is the final index. -/
theorem lastIdxOf_last {c : Char} {l : List Char}
    (h : l[l.length - 1]? = some c) : lastIdxOf c l = some (l.length - 1) := by
  induction l with
  | nil => exact Option.noConfusion h
  | cons x xs ih =>
    cases xs with
    | nil =>
      simp at h
      simp [lastIdxOf, h]
    | cons y ys =>
      have hlen : (x :: y :: ys).length - 1 = (y :: ys).length := by simp
      rw [hlen] at h
      have h' : (y :: ys)[(y :: ys).length - 1]? = some c := by
        have e : (y :: ys).length = ((y :: ys).length - 1) + 1 := by simp
        rw [e] at h
        simpa using h
      rw [lastIdxOf_cons, ih h', hlen]
      congr 1

/-- rfind over a window holding no occurrence returns none. -/
theorem rfindChar_eq_none {text : List Char} {c : Char} {start stop : Nat}
    (h : c ∉ (text.drop start).take (stop - start)) :
    rfindChar text c start stop = none := by
  unfold rfindChar
  rw [(lastIdxOf_eq_none_iff c _).mpr h]
  rfl

/-- rfind converts a window-relative last index into an absolute position. -/
theorem rfindChar_eq_some {text : List Char} {c : Char} {start stop j : Nat}
    (h : lastIdxOf c ((text.drop start).take (stop - start)) = some j) :
    rfindChar text c start stop = some (start + j) := by
  unfold rfindChar
  rw [h]
  rfl

/-- A found rfind position is strictly below the window bound. -/
theorem rfindChar_lt {text : List Char} {c : Char} {start stop s : Nat}
    (h : rfindChar text c start stop = some s) : s < start + (stop - start) := by
  unfold rfindChar at h
  cases hl : lastIdxOf c ((text.drop start).take (stop - start)) with
  | none => rw [hl] at h; exact Option.noConfusion h
  | some j =>
    rw [hl] at h
    simp at h
    have hj := lastIdxOf_lt_length hl
    rw [List.length_take] at hj
    have : j < stop - start := lt_of_lt_of_le hj (min_le_left _ _)
    omega

/-- With no delimiter and no newline in the window, the split is a hard cut at pos + limit. -/
theorem splitPos_hard (text : List Char) (limit pos : Nat)
    (hp : zenkakuPeriod ∉ (text.drop pos).take limit)
    (hn : newlineChar ∉ (text.drop pos).take limit) :
    splitPos text limit pos = pos + limit := by
  have e : pos + limit - pos = limit := Nat.add_sub_cancel_left pos limit
  have hp' : zenkakuPeriod ∉ (text.drop pos).take (pos + limit - pos) := by rwa [e]
  have hn' : newlineChar ∉ (text.drop pos).take (pos + limit - pos) := by rwa [e]
  simp only [splitPos, foundPos, rfindChar_eq_none hp', rfindChar_eq_none hn']

/-- A delimiter found at a window-relative index j > 0 makes the split pos + j. -/
theorem splitPos_found {text : List Char} {limit pos j : Nat} (hj : 0 < j)
    (h : lastIdxOf zenkakuPeriod ((text.drop pos).take limit) = some j) :
    splitPos text limit pos = pos + j := by
  have e : pos + limit - pos = limit := Nat.add_sub_cancel_left pos limit
  have h' : lastIdxOf zenkakuPeriod ((text.drop pos).take (pos + limit - pos)) = some j := by
    rwa [e]
  simp only [splitPos, foundPos, rfindChar_eq_some h']
  rw [if_neg (by omega)]

/-- The loop never moves its cursor backwards. -/
theorem le_splitPos (text : List Char) (limit pos : Nat) : pos ≤ splitPos text limit pos := by
  unfold splitPos
  cases h : foundPos text limit pos with
  | none => exact Nat.le_add_right pos limit
  | some s =>
    dsimp only
    split
    · exact Nat.le_add_right pos limit
    · omega

/-- The split position never exceeds the hard-cut bound pos + limit. -/
theorem splitPos_le (text : List Char) (limit pos : Nat) :
    splitPos text limit pos ≤ pos + limit := by
  unfold splitPos
  cases h : foundPos text limit pos with
  | none => exact Nat.le_refl _
  | some s =>
    dsimp only
    split
    · exact Nat.le_refl _
    · have hs : s < pos + limit := by
        unfold foundPos at h
        cases h1 : rfindChar text zenkakuPeriod pos (pos + limit) with
        | some s1 =>
          rw [h1] at h
          cases h
          have := rfindChar_lt h1
          omega
        | none =>
          rw [h1] at h
          have := rfindChar_lt h
          omega
      omega

/-- One unfolding of the loop while the cursor is inside the text. -/
theorem chunkLoop_step {text : List Char} {limit fuel pos : Nat} (h : pos < text.length) :
    chunkLoop text limit (fuel + 1) pos =
      (text.drop pos).take (splitPos text limit pos + 1 - pos) ::
        chunkLoop text limit fuel (splitPos text limit pos + 1) := by
  simp [chunkLoop, h]

/-- The loop stops as soon as the cursor reaches the end of the text. -/
theorem chunkLoop_stop {text : List Char} {limit fuel pos : Nat} (h : text.length ≤ pos) :
    chunkLoop text limit fuel pos = [] := by
  cases fuel with
  | zero => rfl
  | succ f => simp [chunkLoop, Nat.not_lt.mpr h]

/-- The loop result is independent of the fuel once the fuel covers the remaining
text, which is the termination of the Python while-loop: the cursor advances by at
least one position per iteration, so length-many iterations always suffice. -/
theorem chunkLoop_fuel {text : List Char} {limit : Nat} :
    ∀ f₁ f₂ pos, text.length ≤ f₁ + pos → text.length ≤ f₂ + pos →
      chunkLoop text limit f₁ pos = chunkLoop text limit f₂ pos := by
  intro f₁
  induction f₁ with
  | zero =>
    intro f₂ pos h1 h2
    rw [chunkLoop_stop (by omega), chunkLoop_stop (by omega)]
  | succ a ih =>
    intro f₂ pos h1 h2
    by_cases hpos : pos < text.length
    · cases f₂ with
      | zero => omega
      | succ b =>
        rw [chunkLoop_step hpos, chunkLoop_step hpos]
        have hsp := le_splitPos text limit pos
        congr 1
        exact ih (b) (splitPos text limit pos + 1) (by omega) (by omega)
    · rw [chunkLoop_stop (Nat.not_lt.mp hpos), chunkLoop_stop (Nat.not_lt.mp hpos)]

/-- Concatenating the loop's parts from any cursor reproduces the remaining text. -/
theorem chunkLoop_flatten (text : List Char) (limit : Nat) :
    ∀ fuel pos, text.length ≤ fuel + pos →
      (chunkLoop text limit fuel pos).flatten = text.drop pos := by
  intro fuel
  induction fuel with
  | zero =>
    intro pos h
    rw [chunkLoop_stop (by omega)]
    simp [List.drop_eq_nil_of_le (by omega : text.length ≤ pos)]
  | succ a ih =>
    intro pos h
    by_cases hpos : pos < text.length
    · have hsp := le_splitPos text limit pos
      rw [chunkLoop_step hpos, List.flatten_cons,
        ih (splitPos text limit pos + 1) (by omega)]
      have hdp : text.drop (splitPos text limit pos + 1) =
          (text.drop pos).drop (splitPos text limit pos + 1 - pos) := by
        rw [List.drop_drop]
        congr 1
        omega
      rw [hdp, List.take_append_drop]
    · rw [chunkLoop_stop (Nat.not_lt.mp hpos)]
      simp [List.drop_eq_nil_of_le (Nat.not_lt.mp hpos)]

/-- Every part emitted by the loop has at most limit + 1 characters: a found split
keeps at most limit characters plus the delimiter, and a hard cut slices from the
cursor through position pos + limit inclusive. -/
theorem chunkLoop_part_length (text : List Char) (limit : Nat) :
    ∀ fuel pos p, p ∈ chunkLoop text limit fuel pos → p.length ≤ limit + 1 := by
  intro fuel
  induction fuel with
  | zero =>
    intro pos p hp
    simp [chunkLoop] at hp
  | succ a ih =>
    intro pos p hp
    by_cases hpos : pos < text.length
    · rw [chunkLoop_step hpos] at hp
      rcases List.mem_cons.mp hp with h | h
      · subst h
        have h1 : ((text.drop pos).take (splitPos text limit pos + 1 - pos)).length ≤
            splitPos text limit pos + 1 - pos := by
          rw [List.length_take]
          exact min_le_left _ _
        have h2 := splitPos_le text limit pos
        omega
      · exact ih _ _ h
    · rw [chunkLoop_stop (Nat.not_lt.mp hpos)] at hp
      exact absurd hp (List.not_mem_nil p)

/-- A character different from the filler never occurs in a filler-only list. -/
theorem not_mem_replicate_a {c : Char} (hc : c ≠ 'a') (n : Nat) :
    c ∉ List.replicate n 'a' :=
  fun h => hc (List.eq_of_mem_replicate h)

/-- C1: for every text strictly longer than the limit, the chunking loop of
send_long_message terminates (its result is fuel-independent once the fuel covers
the text) and the concatenation, in order, of every part's content — headers
excluded — equals the original text exactly, with no character duplicated or lost
at part boundaries. -/
theorem chunk_concat_exact (text : List Char) (limit : Nat) (h : limit < text.length) :
    (∀ fuel, text.length ≤ fuel → chunkLoop text limit fuel 0 = chunkParts text limit) ∧
    (chunkParts text limit).flatten = text := by
  constructor
  · intro fuel hf
    exact chunkLoop_fuel fuel text.length 0 (by omega) (by omega)
  · have hj := chunkLoop_flatten text limit text.length 0 (by omega)
    simpa [chunkParts] using hj

/-- Witness for C1 at a concrete five-character text with limit 2. -/
theorem chunk_concat_exact_witness :
    chunkLoop "abcde".data 2 7 0 = chunkParts "abcde".data 2 ∧
    (chunkParts "abcde".data 2).flatten = "abcde".data := by
  have h := chunk_concat_exact "abcde".data 2 (by decide)
  exact ⟨h.1 7 (by decide), h.2⟩

/-- C2 counterexample: the all-'a' text of length 3002 has no sentence-ending
delimiter and no newline and is longer than the limit 3000, yet the first emitted
part has 3001 characters — the hard cut slices through position pos + limit
inclusive — so parts are not bounded by the limit as the claim states. -/
theorem chunk_bound_counterexample :
    zenkakuPeriod ∉ List.replicate 3002 'a' ∧
    newlineChar ∉ List.replicate 3002 'a' ∧
    3000 < (List.replicate 3002 'a').length ∧
    (chunkParts (List.replicate 3002 'a') 3000).map List.length = [3001, 1] ∧
    ¬(3001 ≤ 3000) := by
  refine ⟨not_mem_replicate_a (by decide) _, not_mem_replicate_a (by decide) _,
    by rw [List.length_replicate]; norm_num, ?_, by omega⟩
  have hlen : (List.replicate 3002 'a').length = 3002 := List.length_replicate _ _
  have hw1 : ((List.replicate 3002 'a').drop 0).take 3000 = List.replicate 3000 'a' := by
    rw [List.drop_zero, List.take_replicate]
    congr 1
  have hs1 : splitPos (List.replicate 3002 'a') 3000 0 = 3000 := by
    have hp := splitPos_hard (List.replicate 3002 'a') 3000 0
      (by rw [hw1]; exact not_mem_replicate_a (by decide) _)
      (by rw [hw1]; exact not_mem_replicate_a (by decide) _)
    omega
  have hw2 : ((List.replicate 3002 'a').drop 3001).take 3000 = List.replicate 1 'a' := by
    rw [List.drop_replicate, List.take_replicate]
    congr 1
  have hs2 : splitPos (List.replicate 3002 'a') 3000 3001 = 6001 := by
    have hp := splitPos_hard (List.replicate 3002 'a') 3000 3001
      (by rw [hw2]; exact not_mem_replicate_a (by decide) _)
      (by rw [hw2]; exact not_mem_replicate_a (by decide) _)
    omega
  unfold chunkParts
  rw [hlen]
  show List.map List.length (chunkLoop (List.replicate 3002 'a') 3000 (3001 + 1) 0) = [3001, 1]
  rw [chunkLoop_step (by rw [hlen]; norm_num)]
  rw [hs1]
  rw [(by norm_num : 3000 + 1 - 0 = 3001), (by norm_num : 3000 + 1 = 3001)]
  show List.map List.length
      ((List.drop 0 (List.replicate 3002 'a')).take 3001 ::
        chunkLoop (List.replicate 3002 'a') 3000 (3000 + 1) 3001) = [3001, 1]
  rw [chunkLoop_step (by rw [hlen]; norm_num)]
  rw [hs2]
  rw [(by norm_num : 6001 + 1 - 3001 = 3001), (by norm_num : 6001 + 1 = 6002)]
  rw [chunkLoop_stop (by rw [hlen]; norm_num)]
  rw [List.drop_zero, List.map_cons, List.map_cons, List.map_nil]
  rw [List.length_take, hlen, List.length_take, List.length_drop, hlen]
  norm_num

/-- C2 (amended): for every text longer than the limit with no sentence-ending
delimiter and no newline anywhere, the chunking loop never loops indefinitely
(its result is fuel-independent once the fuel covers the text) and every emitted
part's content — header excluded — has length at most limit + 1, the hard cut
emitting the slice from the cursor through position cursor + limit inclusive. -/
theorem chunk_no_delimiter_bound (text : List Char) (limit : Nat)
    (h : limit < text.length)
    (hp : zenkakuPeriod ∉ text) (hn : newlineChar ∉ text) :
    (∀ fuel, text.length ≤ fuel → chunkLoop text limit fuel 0 = chunkParts text limit) ∧
    (chunkParts text limit).all (fun p => decide (p.length ≤ limit + 1)) = true := by
  refine ⟨fun fuel hf => chunkLoop_fuel fuel text.length 0 (by omega) (by omega), ?_⟩
  rw [List.all_eq_true]
  intro p hmem
  have := chunkLoop_part_length text limit text.length 0 p hmem
  simpa using this

/-- Witness for C2 (amended) at the concrete delimiter-free text aaaa with limit 2. -/
theorem chunk_no_delimiter_bound_witness :
    chunkLoop "aaaa".data 2 9 0 = chunkParts "aaaa".data 2 ∧
    (chunkParts "aaaa".data 2).all (fun p => decide (p.length ≤ 2 + 1)) = true := by
  have h := chunk_no_delimiter_bound "aaaa".data 2 (by decide) (by decide) (by decide)
  exact ⟨h.1 9 (by decide), h.2⟩

/-- Rewriting helper: the chunk loop respects equality of fuel values. -/
theorem chunkLoop_congr_fuel {text : List Char} {limit pos : Nat} {f g : Nat} (h : f = g) :
    chunkLoop text limit f pos = chunkLoop text limit g pos := by rw [h]

/-- A predicate holding on the repeated element holds on the whole replicated list. -/
theorem all_replicate_of {p : Char → Bool} {a : Char} (h : p a = true) (n : Nat) :
    (List.replicate n a).all p = true := by
  rw [List.all_eq_true]
  intro x hx
  rw [List.eq_of_mem_replicate hx]
  exact h

/-- A character absent from every indexed position of the prefix is not in the prefix. -/
theorem not_mem_take_of_getElem {c : Char} {l : List Char} {n : Nat}
    (h : ∀ i, i < n → l[i]? ≠ some c) : c ∉ l.take n := by
  intro hmem
  rcases List.mem_iff_getElem?.mp hmem with ⟨j, hj⟩
  have hjn : j < n := by
    by_contra hge
    rw [List.getElem?_eq_none (by rw [List.length_take]; omega)] at hj
    exact Option.noConfusion hj
  rw [List.getElem?_take_of_lt hjn] at hj
  exact h j hjn hj

/-- Scenario C text with no trailing delimiter: 3500 characters, the single
sentence-ending delimiter at position 3100, no newline anywhere. -/
def scenarioCText : List Char :=
  List.replicate 3100 'a' ++ zenkakuPeriod :: List.replicate 399 'a'

/-- C3 counterexample: a text of length 3500 whose first sentence-ending delimiter
sits at position 3100 and which has no newline in its first 3000 characters is
chunked with limit 3000 into three parts, not two: the hard cut emits positions
0..3000, the found delimiter ends the second part at position 3100, and the 399
remaining characters form a third part. -/
theorem scenarioC_counterexample :
    scenarioCText.length = 3500 ∧
    (scenarioCText.take 3100).all (fun x => decide (x ≠ zenkakuPeriod)) = true ∧
    scenarioCText[3100]? = some zenkakuPeriod ∧
    (scenarioCText.take 3000).all (fun x => decide (x ≠ newlineChar)) = true ∧
    (chunkParts scenarioCText 3000).length = 3 := by
  have hlen : scenarioCText.length = 3500 := by
    unfold scenarioCText
    simp only [List.length_append, List.length_cons, List.length_replicate]
  have htake3100 : scenarioCText.take 3100 = List.replicate 3100 'a' := by
    unfold scenarioCText
    rw [List.take_append_eq_append_take, List.length_replicate, List.take_replicate,
      Nat.min_self, Nat.sub_self, List.take_zero, List.append_nil]
  have htake3000 : scenarioCText.take 3000 = List.replicate 3000 'a' := by
    unfold scenarioCText
    rw [List.take_append_eq_append_take, List.length_replicate, List.take_replicate,
      (by omega : (3000 : Nat) ⊓ 3100 = 3000), (by omega : (3000 : Nat) - 3100 = 0),
      List.take_zero, List.append_nil]
  have hget3100 : scenarioCText[3100]? = some zenkakuPeriod := by
    unfold scenarioCText
    rw [List.getElem?_append_right
        (by rw [List.length_replicate] : (List.replicate 3100 'a').length ≤ 3100),
      List.length_replicate, Nat.sub_self, List.getElem?_cons_zero]
  have hs1 : splitPos scenarioCText 3000 0 = 3000 := by
    have hp := splitPos_hard scenarioCText 3000 0
      (by rw [List.drop_zero, htake3000]; exact not_mem_replicate_a (by decide) _)
      (by rw [List.drop_zero, htake3000]; exact not_mem_replicate_a (by decide) _)
    omega
  have hdrop2 : scenarioCText.drop 3001 =
      List.replicate 99 'a' ++ zenkakuPeriod :: List.replicate 399 'a' := by
    unfold scenarioCText
    rw [List.drop_append_eq_append_drop, List.length_replicate, List.drop_replicate,
      (by omega : (3100 : Nat) - 3001 = 99), (by omega : (3001 : Nat) - 3100 = 0),
      List.drop_zero]
  have hwin2 : (scenarioCText.drop 3001).take 3000 =
      List.replicate 99 'a' ++ zenkakuPeriod :: List.replicate 399 'a' := by
    rw [hdrop2]
    apply List.take_of_length_le
    simp only [List.length_append, List.length_cons, List.length_replicate]
    omega
  have hlast2 : lastIdxOf zenkakuPeriod ((scenarioCText.drop 3001).take 3000) = some 99 := by
    rw [hwin2]
    have hc : lastIdxOf zenkakuPeriod (zenkakuPeriod :: List.replicate 399 'a') = some 0 := by
      rw [lastIdxOf_cons,
        (lastIdxOf_eq_none_iff _ _).mpr (not_mem_replicate_a (by decide) _)]
      simp
    have hap := lastIdxOf_append_some (List.replicate 99 'a') hc
    rw [List.length_replicate, Nat.add_zero] at hap
    exact hap
  have hs2 : splitPos scenarioCText 3000 3001 = 3100 := by
    have := splitPos_found (by norm_num : (0 : Nat) < 99) hlast2
    omega
  have hdrop3 : scenarioCText.drop 3101 = List.replicate 399 'a' := by
    unfold scenarioCText
    rw [List.drop_append_eq_append_drop, List.length_replicate, List.drop_replicate,
      (by omega : (3100 : Nat) - 3101 = 0), List.replicate_zero, List.nil_append,
      (by omega : (3101 : Nat) - 3100 = 1), List.drop_one, List.tail_cons]
  have hwin3 : (scenarioCText.drop 3101).take 3000 = List.replicate 399 'a' := by
    rw [hdrop3]
    apply List.take_of_length_le
    rw [List.length_replicate]
    omega
  have hs3 : splitPos scenarioCText 3000 3101 = 6101 := by
    have hp := splitPos_hard scenarioCText 3000 3101
      (by rw [hwin3]; exact not_mem_replicate_a (by decide) _)
      (by rw [hwin3]; exact not_mem_replicate_a (by decide) _)
    omega
  refine ⟨hlen, ?_, hget3100, ?_, ?_⟩
  · rw [htake3100]
    exact all_replicate_of (by decide) _
  · rw [htake3000]
    exact all_replicate_of (by decide) _
  · unfold chunkParts
    rw [hlen]
    rw [chunkLoop_congr_fuel (by norm_num : (3500 : Nat) = 3499 + 1)]
    rw [chunkLoop_step (by rw [hlen]; norm_num)]
    rw [hs1]
    rw [(by norm_num : (3000 : Nat) + 1 = 3001), Nat.sub_zero]
    rw [chunkLoop_congr_fuel (by norm_num : (3499 : Nat) = 3498 + 1)]
    rw [chunkLoop_step (by rw [hlen]; norm_num)]
    rw [hs2]
    rw [(by norm_num : (3100 : Nat) + 1 = 3101)]
    rw [chunkLoop_congr_fuel (by norm_num : (3498 : Nat) = 3497 + 1)]
    rw [chunkLoop_step (by rw [hlen]; norm_num)]
    rw [hs3]
    rw [chunkLoop_stop (by rw [hlen]; omega)]
    rw [List.length_cons, List.length_cons, List.length_cons, List.length_nil]

/-- C3 (amended): for an input text of length 3500 whose first sentence-ending
delimiter is at position 3100, with no newline in its first 3000 characters, and
which additionally ends with a sentence-ending delimiter at position 3499,
chunking with limit 3000 produces a hard cut at position 3000 and exactly two
parts — positions 0..3000 and 3001..3499 — whose posted headers mark part 1 of 2
and part 2 of 2 respectively. -/
theorem scenarioC_amended (text : List Char)
    (h1 : text.length = 3500)
    (h2 : ∀ i, i < 3100 → text[i]? ≠ some zenkakuPeriod)
    (h3 : text[3100]? = some zenkakuPeriod)
    (h4 : ∀ i, i < 3000 → text[i]? ≠ some newlineChar)
    (h5 : text[3499]? = some zenkakuPeriod) :
    splitPos text 3000 0 = 3000 ∧
    chunkParts text 3000 = [text.take 3001, text.drop 3001] ∧
    send_long_texts text =
      [partHeader 1 2 ++ text.take 3001, partHeader 2 2 ++ text.drop 3001] := by
  have hs1 : splitPos text 3000 0 = 3000 := by
    have hp := splitPos_hard text 3000 0
      (by rw [List.drop_zero]; exact not_mem_take_of_getElem (fun i hi => h2 i (by omega)))
      (by rw [List.drop_zero]; exact not_mem_take_of_getElem h4)
    omega
  have hwlen : (text.drop 3001).length = 499 := by
    rw [List.length_drop, h1]
  have hwin : (text.drop 3001).take 3000 = text.drop 3001 :=
    List.take_of_length_le (by rw [hwlen]; omega)
  have hl : (text.drop 3001)[(text.drop 3001).length - 1]? = some zenkakuPeriod := by
    rw [hwlen, (by omega : (499 : Nat) - 1 = 498), List.getElem?_drop,
      (by omega : (3001 : Nat) + 498 = 3499)]
    exact h5
  have hlast := lastIdxOf_last hl
  rw [hwlen] at hlast
  have hlast' : lastIdxOf zenkakuPeriod ((text.drop 3001).take 3000) = some 498 := by
    rw [hwin]
    exact hlast
  have hs2 : splitPos text 3000 3001 = 3499 := by
    have := splitPos_found (by omega : (0 : Nat) < 498) hlast'
    omega
  have hparts : chunkParts text 3000 = [text.take 3001, text.drop 3001] := by
    unfold chunkParts
    rw [h1]
    rw [chunkLoop_congr_fuel (by norm_num : (3500 : Nat) = 3499 + 1)]
    rw [chunkLoop_step (by rw [h1]; norm_num)]
    rw [hs1, (by norm_num : (3000 : Nat) + 1 = 3001), Nat.sub_zero]
    rw [chunkLoop_congr_fuel (by norm_num : (3499 : Nat) = 3498 + 1)]
    rw [chunkLoop_step (by rw [h1]; norm_num)]
    rw [hs2, (by norm_num : (3499 : Nat) + 1 = 3500),
      (by norm_num : (3500 : Nat) - 3001 = 499)]
    rw [List.take_of_length_le (by rw [hwlen] : (text.drop 3001).length ≤ 499)]
    rw [chunkLoop_stop (by rw [h1] : text.length ≤ 3500)]
    rw [List.drop_zero]
  refine ⟨hs1, hparts, ?_⟩
  unfold send_long_texts LIMIT
  rw [if_neg (by rw [h1]; omega)]
  rw [hparts]
  simp [List.enum_cons, List.enumFrom_cons, List.enumFrom_nil, List.length_cons]

/-- Scenario C text ending in the delimiter: delimiters at positions 3100 and 3499 only. -/
def scenarioCTextB : List Char :=
  List.replicate 3100 'a' ++ zenkakuPeriod :: (List.replicate 398 'a' ++ [zenkakuPeriod])

/-- Witness for C3 (amended) at a concrete 3500-character text. -/
theorem scenarioC_amended_witness :
    splitPos scenarioCTextB 3000 0 = 3000 ∧
    chunkParts scenarioCTextB 3000 = [scenarioCTextB.take 3001, scenarioCTextB.drop 3001] ∧
    send_long_texts scenarioCTextB =
      [partHeader 1 2 ++ scenarioCTextB.take 3001,
       partHeader 2 2 ++ scenarioCTextB.drop 3001] := by
  apply scenarioC_amended
  · unfold scenarioCTextB
    simp only [List.length_append, List.length_cons, List.length_replicate, List.length_nil]
  · intro i hi
    unfold scenarioCTextB
    rw [List.getElem?_append_left (by rw [List.length_replicate]; exact hi)]
    rw [List.getElem?_replicate, if_pos hi]
    intro hcontra
    exact absurd (Option.some.inj hcontra) (by decide)
  · unfold scenarioCTextB
    rw [List.getElem?_append_right
        (by rw [List.length_replicate] : (List.replicate 3100 'a').length ≤ 3100),
      List.length_replicate, Nat.sub_self, List.getElem?_cons_zero]
  · intro i hi
    unfold scenarioCTextB
    rw [List.getElem?_append_left (by rw [List.length_replicate]; omega)]
    rw [List.getElem?_replicate, if_pos (by omega : i < 3100)]
    intro hcontra
    exact absurd (Option.some.inj hcontra) (by decide)
  · unfold scenarioCTextB
    rw [List.getElem?_append_right (by rw [List.length_replicate]; omega)]
    rw [List.length_replicate, (by omega : (3499 : Nat) - 3100 = 399)]
    rw [(by omega : (399 : Nat) = 398 + 1), List.getElem?_cons_succ]
    rw [List.getElem?_append_right
        (by rw [List.length_replicate] : (List.replicate 398 'a').length ≤ 398)]
    rw [List.length_replicate, Nat.sub_self, List.getElem?_cons_zero]

/-- Python-style whitespace predicate used by str.strip: the Unicode code points
the default strip removes. -/
def isPySpace (c : Char) : Bool :=
  c.toNat = 32 ∨ (9 ≤ c.toNat ∧ c.toNat ≤ 13) ∨ (28 ≤ c.toNat ∧ c.toNat ≤ 31) ∨
    c.toNat = 133 ∨ c.toNat = 160 ∨ c.toNat = 5760 ∨
    (8192 ≤ c.toNat ∧ c.toNat ≤ 8202) ∨ c.toNat = 8232 ∨ c.toNat = 8233 ∨
    c.toNat = 8239 ∨ c.toNat = 8287 ∨ c.toNat = 12288

/-- Embedding of Python str.strip(): drop whitespace from both ends. -/
def pyStrip (l : List Char) : List Char :=
  ((l.dropWhile isPySpace).reverse.dropWhile isPySpace).reverse

/-- Whether the second list begins with the first list. -/
def listStartsWith : List Char → List Char → Bool
  | [], _ => true
  | _ :: _, [] => false
  | p :: ps, c :: cs => p == c && listStartsWith ps cs

/-- Fuel-indexed worker for removing every occurrence of a pattern, scanning left
to right without overlap, as Python str.replace(pat, empty) does. -/
def removeAllAux (pat : List Char) : Nat → List Char → List Char
  | 0, l => l
  | _ + 1, [] => []
  | fuel + 1, c :: rest =>
    if listStartsWith pat (c :: rest) then
      removeAllAux pat fuel ((c :: rest).drop pat.length)
    else
      c :: removeAllAux pat fuel rest

/-- Embedding of Python text.replace(pat, empty-string): remove every occurrence. -/
def removeAll (pat l : List Char) : List Char :=
  removeAllAux pat l.length l

/-- Classifier output normalization from handle_message: strip whitespace, then
remove every apostrophe, double quote, fullwidth full stop, and asterisk. -/
def normalizeTopic (raw : List Char) : List Char :=
  ((((pyStrip raw).filter (fun c => !(c == squoteChar))).filter
      (fun c => !(c == dquoteChar))).filter
    (fun c => !(c == zenkakuPeriod))).filter (fun c => !(c == '*'))

/-- One catalog entry of DOCUMENTS_INFO: keyword, backing file, and description. -/
structure DocInfo where
  keyword : String
  filename : String
  description : String
deriving DecidableEq

/-- The static topic catalog DOCUMENTS_INFO of the bot. -/
def DOCUMENTS_INFO : List DocInfo :=
  [⟨"ゼミ", "zemi_unei.txt", "研究室のゼミのルール、発表者や座長の役割について説明している資料．"⟩,
   ⟨"配属後の流れ", "haizoku_flow.txt", "研究室に新しく配属された学生が、最初に行うべき手続きや活動の流れを説明している資料．"⟩,
   ⟨"論文テンプレート", "ronbun_template.txt", "卒業論文や修士論文を執筆する際のWordテンプレートの使い方や注意点を説明している資料．"⟩,
   ⟨"発表の質問例", "shitsumon_rei.txt", "研究発表の質疑応答でよく聞かれる質問の例をまとめている資料．"⟩,
   ⟨"Python教材", "kyouzai_python.txt", "プログラミング言語Pythonの基本的な学習教材やサイトについて紹介している資料．"⟩,
   ⟨"Pytorch教材", "kyouzai_pytorch.txt", "深層学習フレームワークPytorchの学習教材について紹介している資料．"⟩,
   ⟨"機械学習教材", "kyouzai_machine_learning.txt", "機械学習の全体的な学習教材やライブラリ(scikit-learnなど)について紹介している資料．"⟩,
   ⟨"深層学習教材", "kyouzai_deep_learning.txt", "ディープラーニング（深層学習）の概念や理論に関する学習教材を紹介している資料．"⟩,
   ⟨"統計学教材", "kyouzai_statistics.txt", "統計学の学習教材を紹介している資料．"⟩,
   ⟨"線形代数教材", "kyouzai_linear_algebra.txt", "線形代数の学習教材を紹介している資料．"⟩,
   ⟨"自己紹介", "yourprofile.txt", "AIアシスタント自身の役割や、何ができるかといった自己紹介．"⟩]

/-- Embedding of get_gemini_response: the boolean says whether the generative
model handle was configured at startup, and the Except value is the outcome of
the external generate call, an exception being mapped to the user-facing error
text that embeds the failure detail. The function is total: no failure signal
ever propagates to the caller. -/
def get_gemini_response (modelAvailable : Bool) (callResult : Except String String) : String :=
  if !modelAvailable then "Gemini APIキーが設定されていないため、応答できません．"
  else
    match callResult with
    | Except.ok t => t
    | Except.error e => "申し訳ありません、AIとの通信中にエラーが発生しました．(" ++ e ++ ")"

/-- An inbound Slack event as handle_message reads it: bot marker, channel kind,
event kind, raw text, channel id, message timestamp, optional thread timestamp. -/
structure SlackEvent where
  bot_id : Option String
  channel_type : String
  etype : String
  text : String
  channel : String
  ts : String
  thread_ts : Option String

/-- Outcomes of the external collaborators during one handle_message run: whether
the gemini client exists, the classification call result, the document read
result, the answer generation call result, and the timestamp Slack assigned to
the placeholder message posted by say. -/
structure Externals where
  geminiAvailable : Bool
  classifyResult : Except String String
  docRead : Except String String
  answerResult : Except String String
  thinkingTs : String

/-- One outbound call made by the handler: a Slack post, update, or delete, a
gemini generate call, or a document-store read. -/
inductive OutboundCall where
  | postMessage (channel thread : String) (text : List Char)
  | update (channel ts : String) (text : List Char)
  | delete (channel ts : String)
  | geminiCall
  | docReadCall (filename : String)
deriving DecidableEq

/-- The mention token Slack inserts for the bot user, removed from mention texts. -/
def mentionToken (botUserId : String) : List Char :=
  ("<@" ++ botUserId ++ ">").data

/-- The user query extracted by handle_message: mention events have every mention
token removed and are stripped, direct messages are only stripped. -/
def userQuery (ev : SlackEvent) (botUserId : String) : List Char :=
  if ev.etype = "app_mention" then
    pyStrip (removeAll (mentionToken botUserId) ev.text.data)
  else
    pyStrip ev.text.data

/-- Embedding of the Python expression (a or b) on an optional string: a missing
or empty string falls back to the second value. -/
def pythonOr (o : Option String) (d : String) : String :=
  match o with
  | some t => if t.isEmpty then d else t
  | none => d

/-- The normalized topic label computed from the classification call's reply. -/
def classifiedTopic (ext : Externals) : List Char :=
  normalizeTopic (get_gemini_response ext.geminiAvailable ext.classifyResult).data

/-- The first catalog entry whose keyword equals the normalized topic exactly. -/
def selectedDoc (ext : Externals) : Option DocInfo :=
  DOCUMENTS_INFO.find? (fun d => d.keyword.data == classifiedTopic ext)

/-- The placeholder text posted on arrival of a query. -/
def thinkingText : List Char := "🤔 どの資料を読めばいいか考えています...".data

/-- The placeholder update naming the selected document. -/
def readingText (filename : String) : List Char :=
  ("🤔 `" ++ filename ++ "` を読んでいます...").data

/-- The placeholder update announcing the fallback to general knowledge. -/
def fallbackNotice : List Char :=
  "🤔 うーん、関連する資料は見つからなかったけど、僕の知識で答えてみるね．".data

/-- The top-level error message, embedding the caught failure detail. -/
def errorText (e : String) : List Char :=
  ("申し訳ありません．エラーが発生しました: " ++ e).data

/-- The outbound posts of send_long_message into a channel and thread. -/
def send_long_message (channel thread : String) (text : List Char) : List OutboundCall :=
  (send_long_texts text).map (fun t => OutboundCall.postMessage channel thread t)

/-- Embedding of handle_message as the sequence of outbound calls of one run:
bot-authored events are dropped, only direct messages and mentions proceed, an
empty extracted query returns before any call, and otherwise the placeholder is
posted, the classification call made, and the matched branch (update, document
read, answer call, delete, chunked posts — or the error update when the read
fails) or the fallback branch (update, answer call, update in place) runs. -/
def handle_message (ev : SlackEvent) (botUserId : String) (ext : Externals) :
    List OutboundCall :=
  if ev.bot_id.isSome then []
  else if ev.channel_type = "im" ∨ ev.etype = "app_mention" then
    if userQuery ev botUserId = [] then []
    else
      match selectedDoc ext with
      | some doc =>
        match ext.docRead with
        | Except.error e =>
          [OutboundCall.postMessage ev.channel (pythonOr ev.thread_ts ev.ts) thinkingText,
           OutboundCall.geminiCall,
           OutboundCall.update ev.channel ext.thinkingTs (readingText doc.filename),
           OutboundCall.docReadCall doc.filename,
           OutboundCall.update ev.channel ext.thinkingTs (errorText e)]
        | Except.ok _ =>
          [OutboundCall.postMessage ev.channel (pythonOr ev.thread_ts ev.ts) thinkingText,
           OutboundCall.geminiCall,
           OutboundCall.update ev.channel ext.thinkingTs (readingText doc.filename),
           OutboundCall.docReadCall doc.filename,
           OutboundCall.geminiCall,
           OutboundCall.delete ev.channel ext.thinkingTs] ++
          send_long_message ev.channel (pythonOr ev.thread_ts ev.ts)
            (get_gemini_response ext.geminiAvailable ext.answerResult).data
      | none =>
        [OutboundCall.postMessage ev.channel (pythonOr ev.thread_ts ev.ts) thinkingText,
         OutboundCall.geminiCall,
         OutboundCall.update ev.channel ext.thinkingTs fallbackNotice,
         OutboundCall.geminiCall,
         OutboundCall.update ev.channel ext.thinkingTs
           (get_gemini_response ext.geminiAvailable ext.answerResult).data]
  else []

/-- C5: the five raw classifier replies — double-quoted, single-quoted,
asterisk-wrapped, trailing fullwidth full stop, and whitespace-surrounded ゼミ —
all normalize to the identical label ゼミ, which then matches the catalog
keyword exactly, selecting the entry backed by zemi_unei.txt. -/
theorem classifier_normalization :
    normalizeTopic (dquoteChar :: ("ゼミ".data ++ [dquoteChar])) = "ゼミ".data ∧
    normalizeTopic (squoteChar :: ("ゼミ".data ++ [squoteChar])) = "ゼミ".data ∧
    normalizeTopic "*ゼミ*".data = "ゼミ".data ∧
    normalizeTopic "ゼミ．".data = "ゼミ".data ∧
    normalizeTopic " ゼミ ".data = "ゼミ".data ∧
    (DOCUMENTS_INFO.find? (fun d => d.keyword.data == "ゼミ".data)).map DocInfo.filename =
      some "zemi_unei.txt" := by
  decide

/-- C7: the answer generator never propagates a failure of the external
generative call as an error signal: for every failure detail it returns the
user-facing explanatory text, which embeds that detail verbatim, so the caller
always receives some text. -/
theorem gemini_error_absorbed (e : String) :
    get_gemini_response true (Except.error e) =
      "申し訳ありません、AIとの通信中にエラーが発生しました．(" ++ e ++ ")" ∧
    (get_gemini_response true (Except.error e)).data =
      "申し訳ありません、AIとの通信中にエラーが発生しました．(".data ++ e.data ++ ")".data := by
  constructor
  · rfl
  · show ("申し訳ありません、AIとの通信中にエラーが発生しました．(" ++ e ++ ")").data =
      "申し訳ありません、AIとの通信中にエラーが発生しました．(".data ++ e.data ++ ")".data
    rw [String.data_append, String.data_append]

/-- C8: an inbound event carrying the bot-identifier marker produces no outbound
call of any kind, whatever its other fields: no placeholder post, no update, no
delete, no reply, no classification or generation call, no document read. -/
theorem bot_event_no_calls (ev : SlackEvent) (botUserId : String) (ext : Externals)
    (h : ev.bot_id.isSome = true) :
    handle_message ev botUserId ext = [] := by
  unfold handle_message
  rw [if_pos h]

/-- Witness for C8 at a concrete bot-authored event. -/
theorem bot_event_no_calls_witness :
    handle_message ⟨some "BOTID", "im", "message", "hello", "C1", "1.0", none⟩ "B"
      ⟨true, Except.ok "x", Except.ok "d", Except.ok "y", "1.1"⟩ = [] :=
  bot_event_no_calls _ _ _ (by decide)

/-- C10: an accepted mention or direct-message event whose text is empty after
mention removal and trimming returns before any outbound call is made. -/
theorem empty_query_no_calls (ev : SlackEvent) (botUserId : String) (ext : Externals)
    (hbot : ev.bot_id = none)
    (hacc : ev.channel_type = "im" ∨ ev.etype = "app_mention")
    (hq : userQuery ev botUserId = []) :
    handle_message ev botUserId ext = [] := by
  unfold handle_message
  rw [hbot]
  rw [if_neg (by simp)]
  rw [if_pos hacc, if_pos hq]

/-- Witness for C10 at a concrete mention event that holds only the mention
token and whitespace. -/
theorem empty_query_no_calls_witness :
    handle_message ⟨none, "", "app_mention", " <@B> ", "C1", "100.1", none⟩ "B"
      ⟨true, Except.ok "x", Except.ok "d", Except.ok "y", "100.2"⟩ = [] :=
  empty_query_no_calls _ _ _ rfl (Or.inr rfl) (by decide)

/-- The first catalog entry, used by concrete runs that classify to ゼミ. -/
def zemiEntry : DocInfo :=
  ⟨"ゼミ", "zemi_unei.txt", "研究室のゼミのルール、発表者や座長の役割について説明している資料．"⟩

/-- C6: when classification matched a catalog entry but the document read fails,
the run ends in the error path: the placeholder is updated with the error
message embedding the failure detail, exactly one generation call (the
classification) has happened — so no fallback-template answer is ever produced —
and no reply or delete follows. -/
theorem doc_read_failure_is_hard_error (ev : SlackEvent) (botUserId : String)
    (ext : Externals) (doc : DocInfo) (e : String)
    (hbot : ev.bot_id = none)
    (hacc : ev.channel_type = "im" ∨ ev.etype = "app_mention")
    (hq : ¬userQuery ev botUserId = [])
    (hsel : selectedDoc ext = some doc)
    (hread : ext.docRead = Except.error e) :
    handle_message ev botUserId ext =
      [OutboundCall.postMessage ev.channel (pythonOr ev.thread_ts ev.ts) thinkingText,
       OutboundCall.geminiCall,
       OutboundCall.update ev.channel ext.thinkingTs (readingText doc.filename),
       OutboundCall.docReadCall doc.filename,
       OutboundCall.update ev.channel ext.thinkingTs (errorText e)] ∧
    errorText e = "申し訳ありません．エラーが発生しました: ".data ++ e.data ∧
    (handle_message ev botUserId ext).count OutboundCall.geminiCall = 1 := by
  have hrun : handle_message ev botUserId ext =
      [OutboundCall.postMessage ev.channel (pythonOr ev.thread_ts ev.ts) thinkingText,
       OutboundCall.geminiCall,
       OutboundCall.update ev.channel ext.thinkingTs (readingText doc.filename),
       OutboundCall.docReadCall doc.filename,
       OutboundCall.update ev.channel ext.thinkingTs (errorText e)] := by
    unfold handle_message
    rw [hbot]
    rw [if_neg (by simp), if_pos hacc, if_neg hq]
    rw [hsel, hread]
  refine ⟨hrun, ?_, ?_⟩
  · unfold errorText
    rw [String.data_append]
  · rw [hrun]
    rfl

/-- The concrete direct-message event used by the hard-error witness. -/
def evC6 : SlackEvent := ⟨none, "im", "message", "ゼミ", "C1", "100.1", none⟩

/-- The concrete collaborator outcomes used by the hard-error witness: the
classification answers ゼミ and the document read fails. -/
def extC6 : Externals :=
  ⟨true, Except.ok "ゼミ", Except.error "no such file", Except.ok "x", "100.2"⟩

/-- Witness for C6 at a concrete matched run whose document read fails. -/
theorem doc_read_failure_witness :
    handle_message evC6 "B" extC6 =
      [OutboundCall.postMessage evC6.channel (pythonOr evC6.thread_ts evC6.ts) thinkingText,
       OutboundCall.geminiCall,
       OutboundCall.update evC6.channel extC6.thinkingTs (readingText zemiEntry.filename),
       OutboundCall.docReadCall zemiEntry.filename,
       OutboundCall.update evC6.channel extC6.thinkingTs (errorText "no such file")] ∧
    errorText "no such file" =
      "申し訳ありません．エラーが発生しました: ".data ++ "no such file".data ∧
    (handle_message evC6 "B" extC6).count OutboundCall.geminiCall = 1 :=
  doc_read_failure_is_hard_error evC6 "B" extC6 zemiEntry "no such file" rfl (Or.inl rfl)
    (by decide) (by decide) rfl

/-- The concrete direct-message event used by the delivery counterexample. -/
def evC4 : SlackEvent := ⟨none, "im", "message", "ゼミ", "C1", "100.1", none⟩

/-- The concrete collaborator outcomes of the delivery counterexample: matched
classification, successful document read, and a short final answer. -/
def extC4 : Externals :=
  ⟨true, Except.ok "ゼミ", Except.ok "doc text", Except.ok "短い回答", "100.2"⟩

/-- C4 counterexample: a matched run whose final answer fits in a single part
still deletes the placeholder and posts the answer as a new message into the
thread; no update carrying the final text ever happens, contradicting the
claimed update-in-place delivery for single-part answers. -/
theorem delivery_counterexample :
    "短い回答".data.length ≤ LIMIT ∧
    OutboundCall.delete "C1" "100.2" ∈ handle_message evC4 "B" extC4 ∧
    OutboundCall.postMessage "C1" "100.1" "短い回答".data ∈ handle_message evC4 "B" extC4 ∧
    OutboundCall.update "C1" "100.2" "短い回答".data ∉ handle_message evC4 "B" extC4 := by
  decide

/-- C4 (amended): delivery differs by branch. In the Matched branch the
placeholder is always deleted and the answer always posted as new messages into
the thread — a single unnumbered post when the text fits the limit. In the
Fallback branch the placeholder is always updated in place with the full answer
text and no chunked posting happens, whatever the answer's length. -/
theorem delivery_by_branch (ev : SlackEvent) (botUserId : String) (ext : Externals)
    (hbot : ev.bot_id = none)
    (hacc : ev.channel_type = "im" ∨ ev.etype = "app_mention")
    (hq : ¬userQuery ev botUserId = []) :
    (∀ doc ctx, selectedDoc ext = some doc → ext.docRead = Except.ok ctx →
      handle_message ev botUserId ext =
        [OutboundCall.postMessage ev.channel (pythonOr ev.thread_ts ev.ts) thinkingText,
         OutboundCall.geminiCall,
         OutboundCall.update ev.channel ext.thinkingTs (readingText doc.filename),
         OutboundCall.docReadCall doc.filename,
         OutboundCall.geminiCall,
         OutboundCall.delete ev.channel ext.thinkingTs] ++
        send_long_message ev.channel (pythonOr ev.thread_ts ev.ts)
          (get_gemini_response ext.geminiAvailable ext.answerResult).data) ∧
    ((get_gemini_response ext.geminiAvailable ext.answerResult).data.length ≤ LIMIT →
      send_long_message ev.channel (pythonOr ev.thread_ts ev.ts)
        (get_gemini_response ext.geminiAvailable ext.answerResult).data =
        [OutboundCall.postMessage ev.channel (pythonOr ev.thread_ts ev.ts)
          (get_gemini_response ext.geminiAvailable ext.answerResult).data]) ∧
    (selectedDoc ext = none →
      handle_message ev botUserId ext =
        [OutboundCall.postMessage ev.channel (pythonOr ev.thread_ts ev.ts) thinkingText,
         OutboundCall.geminiCall,
         OutboundCall.update ev.channel ext.thinkingTs fallbackNotice,
         OutboundCall.geminiCall,
         OutboundCall.update ev.channel ext.thinkingTs
           (get_gemini_response ext.geminiAvailable ext.answerResult).data]) := by
  refine ⟨?_, ?_, ?_⟩
  · intro doc ctx hsel hread
    unfold handle_message
    rw [hbot]
    rw [if_neg (by simp), if_pos hacc, if_neg hq]
    rw [hsel, hread]
  · intro hfit
    unfold send_long_message send_long_texts
    rw [if_pos hfit, List.map_cons, List.map_nil]
  · intro hsel
    unfold handle_message
    rw [hbot]
    rw [if_neg (by simp), if_pos hacc, if_neg hq]
    rw [hsel]

/-- Witness for C4 (amended) at a concrete matched run with a short answer:
the placeholder is deleted and the single-part answer is posted as one new
message. -/
theorem delivery_by_branch_witness :
    handle_message evC4 "B" extC4 =
      [OutboundCall.postMessage evC4.channel (pythonOr evC4.thread_ts evC4.ts) thinkingText,
       OutboundCall.geminiCall,
       OutboundCall.update evC4.channel extC4.thinkingTs (readingText zemiEntry.filename),
       OutboundCall.docReadCall zemiEntry.filename,
       OutboundCall.geminiCall,
       OutboundCall.delete evC4.channel extC4.thinkingTs] ++
      send_long_message evC4.channel (pythonOr evC4.thread_ts evC4.ts)
        (get_gemini_response extC4.geminiAvailable extC4.answerResult).data ∧
    send_long_message evC4.channel (pythonOr evC4.thread_ts evC4.ts)
      (get_gemini_response extC4.geminiAvailable extC4.answerResult).data =
      [OutboundCall.postMessage evC4.channel (pythonOr evC4.thread_ts evC4.ts)
        (get_gemini_response extC4.geminiAvailable extC4.answerResult).data] := by
  have h := delivery_by_branch evC4 "B" extC4 rfl (Or.inl rfl) (by decide)
  exact ⟨h.1 zemiEntry "doc text" (by decide) rfl, h.2.1 (by decide)⟩

/-- Whether every posted message of an outbound-call list is anchored to the
given thread identifier; updates, deletes, and external calls carry no thread. -/
def postsAnchoredTo (acts : List OutboundCall) (anchor : String) : Bool :=
  acts.all (fun a =>
    match a with
    | OutboundCall.postMessage _ th _ => th == anchor
    | _ => true)

/-- Splitting the anchoring check over list concatenation. -/
theorem postsAnchoredTo_append (l₁ l₂ : List OutboundCall) (anchor : String) :
    postsAnchoredTo (l₁ ++ l₂) anchor =
      (postsAnchoredTo l₁ anchor && postsAnchoredTo l₂ anchor) := by
  unfold postsAnchoredTo
  exact List.all_append

/-- Every post of send_long_message is anchored to the thread it was given. -/
theorem postsAnchoredTo_send (ch th : String) (txt : List Char) :
    postsAnchoredTo (send_long_message ch th txt) th = true := by
  unfold postsAnchoredTo send_long_message
  rw [List.all_eq_true]
  intro a ha
  rcases List.mem_map.mp ha with ⟨t, _, rfl⟩
  exact beq_self_eq_true th

/-- C9: on every accepted event, all replies are anchored to a thread identifier
equal to the event's existing (nonempty) thread identifier when one is present,
and otherwise to the event's own message identifier; this holds identically for
direct messages and mentions. -/
theorem replies_thread_anchor (ev : SlackEvent) (botUserId : String) (ext : Externals)
    (hbot : ev.bot_id = none)
    (hacc : ev.channel_type = "im" ∨ ev.etype = "app_mention")
    (hthread : ev.thread_ts = none ∨ ∃ t, ev.thread_ts = some t ∧ ¬t = "") :
    postsAnchoredTo (handle_message ev botUserId ext) (ev.thread_ts.getD ev.ts) = true := by
  have hanchor : pythonOr ev.thread_ts ev.ts = ev.thread_ts.getD ev.ts := by
    rcases hthread with h | ⟨t, ht, hne⟩
    · rw [h]
      rfl
    · rw [ht]
      show (if t.isEmpty then ev.ts else t) = (some t).getD ev.ts
      rw [if_neg (fun he => hne ((String.isEmpty_iff t).mp he)), Option.getD_some]
  rw [← hanchor]
  unfold handle_message
  rw [hbot]
  rw [if_neg (by simp), if_pos hacc]
  by_cases hq : userQuery ev botUserId = []
  · rw [if_pos hq]
    rfl
  · rw [if_neg hq]
    rcases hsel : selectedDoc ext with _ | doc
    · unfold postsAnchoredTo
      simp
    · rcases hread : ext.docRead with e | ctx
      · unfold postsAnchoredTo
        simp
      · dsimp only
        rw [postsAnchoredTo_append, postsAnchoredTo_send]
        unfold postsAnchoredTo
        simp

/-- The concrete mention event with an existing thread used by the anchor witness. -/
def evC9 : SlackEvent :=
  ⟨none, "general", "app_mention", "<@B> ゼミについて", "C2", "100.7", some "99.5"⟩

/-- The concrete collaborator outcomes used by the anchor witness. -/
def extC9 : Externals :=
  ⟨true, Except.ok "一般知識", Except.ok "d", Except.ok "answer", "100.8"⟩

/-- Witness for C9 at a concrete mention event carrying an existing thread id. -/
theorem replies_thread_anchor_witness :
    postsAnchoredTo (handle_message evC9 "B" extC9) (evC9.thread_ts.getD evC9.ts) = true :=
  replies_thread_anchor evC9 "B" extC9 rfl (Or.inr rfl) (Or.inr ⟨"99.5", rfl, by decide⟩)
